import Mathlib

/-!
Verification of the typing-match and word-lifecycle core of the
typetorial_incubator repository (a browser typing arcade game).

The embedding follows the source files:
- src/src/app/entities/Word.ts        (class Word)
- src/src/app/systems/WordSpawner.ts  (class WordSpawner, first variant,
  the one cited by line numbers 55-348 in the claims)
- src/src/app/screens/main/MainScreen.ts (class MainScreen, first variant,
  lines 151-204)
- src/src/app/core/GameState.ts       (class GameState)

JS strings are embedded as List Char (the game's alphabet is Cyrillic and
ASCII, one UTF-16 code unit per character).  Purely presentational effects
(scaling, tinting, bubbles, sounds, setTimeout animations) are outside the
model; the transient hasWrongCharacter flag is kept because typeCharacter
sets it.  Kinematics use floating point and Math.random in the source; the
only gameplay-relevant output of Word.update is the hasReachedEdge flag, so
the boundary-crossing outcome is passed to the model as a Boolean parameter.
-/

namespace Typetorial

/-- Embeds the typing-relevant mutable state of class Word
(src/src/app/entities/Word.ts).  Fields map one to one onto the public and
typing-related private fields of the class. -/
structure WordState where
  targetText : List Char
  typedProgress : Nat
  isActive : Bool
  isCompleted : Bool
  hasReachedEdge : Bool
  hasWrongCharacter : Bool
deriving Repr, DecidableEq

/-- Embeds the Word constructor (Word.ts:44-81): a fresh word with the given
target text, progress 0 and all flags false. -/
def mkWord (t : List Char) : WordState :=
  { targetText := t
    typedProgress := 0
    isActive := false
    isCompleted := false
    hasReachedEdge := false
    hasWrongCharacter := false }

/-- Embeds Word.setActive (Word.ts:170-184): a pure flag flip; the scale and
z-order changes are presentational. -/
def setActive (w : WordState) (active : Bool) : WordState :=
  { w with isActive := active }

/-- Embeds Word.complete (Word.ts:216-225): marks the word completed and
inactive; the destroy animation is presentational. -/
def complete (w : WordState) : WordState :=
  { w with isCompleted := true, isActive := false }

/-- Embeds Word.typeCharacter (Word.ts:141-165).  Returns the Boolean result
together with the updated state.  In JS, targetText[typedProgress] is
undefined when the index is out of range and a one-character string is never
strictly equal to undefined, so the out-of-range case takes the mismatch
branch. -/
def typeCharacter (w : WordState) (c : Char) : Bool × WordState :=
  if w.isCompleted || !w.isActive then (false, w)
  else
    match w.targetText[w.typedProgress]? with
    | some expected =>
        if c = expected then
          let w1 := { w with typedProgress := w.typedProgress + 1,
                             hasWrongCharacter := false }
          if w.targetText.length ≤ w1.typedProgress then (true, complete w1)
          else (true, w1)
        else (false, { w with hasWrongCharacter := true })
    | none => (false, { w with hasWrongCharacter := true })

/-- Embeds Word.update (Word.ts:105-136): a completed word is not updated at
all; otherwise the word moves (float kinematics, abstracted away) and
hasReachedEdge is set once the position crosses the destroy boundary; whether
the boundary was crossed this tick is the reachesEdge parameter. -/
def wordUpdate (w : WordState) (reachesEdge : Bool) : WordState :=
  if w.isCompleted then w
  else { w with hasReachedEdge := w.hasReachedEdge || reachesEdge }

/-- Embeds Word.getNextCharacter (Word.ts:270-273). -/
def getNextCharacter (w : WordState) : Option Char :=
  if w.targetText.length ≤ w.typedProgress then none
  else w.targetText[w.typedProgress]?

/-- Embeds the JS expression t.startsWith(s) on strings as lists of
characters. -/
def strStartsWith : List Char → List Char → Bool
  | _, [] => true
  | [], _ :: _ => false
  | t :: ts, c :: cs => t = c && strStartsWith ts cs

/-- Embeds Word.matchesInput (Word.ts:278-280). -/
def matchesInput (w : WordState) (input : List Char) : Bool :=
  strStartsWith w.targetText input

/-- Embeds Word.resetProgress (Word.ts:285-290): resets progress and clears
the completion and edge flags. -/
def resetProgress (w : WordState) : WordState :=
  { w with typedProgress := 0, isCompleted := false, hasReachedEdge := false }

/-- Embeds Word.destroy (Word.ts:295-301): it only fades the word out and
detaches it from its display parent; no typing-state field is written. -/
def wordDestroy (w : WordState) : WordState := w

/-- Feeds a list of characters to a word by repeated typeCharacter calls,
returning the final state. -/
def feedWord (w : WordState) : List Char → WordState
  | [] => w
  | c :: cs => feedWord (typeCharacter w c).2 cs

/-- The list of Boolean results of repeated typeCharacter calls. -/
def feedResults (w : WordState) : List Char → List Bool
  | [] => []
  | c :: cs => (typeCharacter w c).1 :: feedResults (typeCharacter w c).2 cs

/-- The number of typeCharacter calls that returned true (accepted the
supplied character) while feeding the list. -/
def countSucc (w : WordState) : List Char → Nat
  | [] => 0
  | c :: cs =>
      (if (typeCharacter w c).1 then 1 else 0) + countSucc (typeCharacter w c).2 cs

/-- A typeCharacter call on a completed or inactive word is the no-op branch
(Word.ts:142). -/
theorem typeCharacter_noop (w : WordState) (c : Char)
    (h : w.isCompleted = true ∨ w.isActive = false) :
    typeCharacter w c = (false, w) := by
  have hb : (w.isCompleted || !w.isActive) = true := by
    rcases h with h | h <;> simp [h]
  simp [typeCharacter, hb]

/-- A matching character that fills the target completes the word
(Word.ts:147-155). -/
theorem typeCharacter_match_final (w : WordState) (c : Char)
    (hC : w.isCompleted = false) (hA : w.isActive = true)
    (hg : w.targetText[w.typedProgress]? = some c)
    (hfin : w.targetText.length ≤ w.typedProgress + 1) :
    typeCharacter w c =
      (true, complete { w with typedProgress := w.typedProgress + 1,
                               hasWrongCharacter := false }) := by
  have hb : (w.isCompleted || !w.isActive) = false := by simp [hC, hA]
  simp [typeCharacter, hb, hg, hfin]

/-- A matching character short of the target length just advances progress
(Word.ts:147-157). -/
theorem typeCharacter_match_mid (w : WordState) (c : Char)
    (hC : w.isCompleted = false) (hA : w.isActive = true)
    (hg : w.targetText[w.typedProgress]? = some c)
    (hmid : ¬ w.targetText.length ≤ w.typedProgress + 1) :
    typeCharacter w c =
      (true, { w with typedProgress := w.typedProgress + 1,
                      hasWrongCharacter := false }) := by
  have hb : (w.isCompleted || !w.isActive) = false := by simp [hC, hA]
  simp [typeCharacter, hb, hg, hmid]

/-- A mismatching character only sets the error flag (Word.ts:158-164). -/
theorem typeCharacter_mismatch (w : WordState) (c : Char)
    (hC : w.isCompleted = false) (hA : w.isActive = true)
    (hg : w.targetText[w.typedProgress]? ≠ some c) :
    typeCharacter w c = (false, { w with hasWrongCharacter := true }) := by
  have hb : (w.isCompleted || !w.isActive) = false := by simp [hC, hA]
  rcases he : w.targetText[w.typedProgress]? with _ | e
  · simp [typeCharacter, hb, he]
  · have hce : ¬ c = e := fun h => hg (h ▸ he)
    simp [typeCharacter, hb, he, hce]

/-- Invariant of feeding characters to a word: progress advances by exactly
the number of accepted calls, the word is completed exactly when that number
fills the target, and a completed word is inactive. -/
theorem feedWord_spec (cs : List Char) (w : WordState)
    (hA : w.isCompleted = false →
      w.isActive = true ∧ w.typedProgress < w.targetText.length)
    (hP : w.isCompleted = true →
      w.typedProgress = w.targetText.length ∧ w.isActive = false) :
    (feedWord w cs).typedProgress = w.typedProgress + countSucc w cs ∧
    ((feedWord w cs).isCompleted = true ↔
      w.typedProgress + countSucc w cs = w.targetText.length) ∧
    ((feedWord w cs).isCompleted = true → (feedWord w cs).isActive = false) := by
  induction cs generalizing w with
  | nil =>
    refine ⟨by simp [feedWord, countSucc], ?_, ?_⟩
    · cases hC : w.isCompleted with
      | true => simp [feedWord, countSucc, (hP hC).1, hC]
      | false =>
        have hlt := (hA hC).2
        simp only [feedWord, countSucc, hC, Nat.add_zero]
        constructor
        · intro h; exact Bool.noConfusion h
        · intro h; omega
    · intro h
      simp only [feedWord] at h
      simp only [feedWord]
      exact (hP h).2
  | cons c cs ih =>
    cases hC : w.isCompleted with
    | true =>
      have hstep : typeCharacter w c = (false, w) :=
        typeCharacter_noop w c (Or.inl hC)
      have h := ih w hA hP
      simpa [feedWord, countSucc, hstep] using h
    | false =>
      obtain ⟨hAct, hLt⟩ := hA hC
      by_cases hce : w.targetText[w.typedProgress]? = some c
      · by_cases hfin : w.targetText.length ≤ w.typedProgress + 1
        · have hstep := typeCharacter_match_final w c hC hAct hce hfin
          have h := ih
            (complete { w with typedProgress := w.typedProgress + 1,
                               hasWrongCharacter := false })
            (fun hcon => absurd (show (true : Bool) = false from hcon)
              (by simp))
            (fun _ => ⟨show w.typedProgress + 1 = w.targetText.length by omega,
              rfl⟩)
          obtain ⟨e1, e2, e3⟩ := h
          simp only [complete] at e1 e2 e3
          simp [feedWord, countSucc, hstep, complete]
          refine ⟨by omega, ?_, e3⟩
          rw [e2]
          omega
        · have hstep := typeCharacter_match_mid w c hC hAct hce hfin
          have h := ih
            { w with typedProgress := w.typedProgress + 1,
                     hasWrongCharacter := false }
            (fun _ => ⟨hAct,
              show w.typedProgress + 1 < w.targetText.length by omega⟩)
            (fun hcon => absurd (show w.isCompleted = true from hcon)
              (by simp [hC]))
          obtain ⟨e1, e2, e3⟩ := h
          simp only at e1 e2 e3
          simp [feedWord, countSucc, hstep]
          refine ⟨by omega, ?_, e3⟩
          rw [e2]
          omega
      · have hstep := typeCharacter_mismatch w c hC hAct hce
        have h := ih { w with hasWrongCharacter := true }
          (fun _ => ⟨hAct, hLt⟩)
          (fun hcon => absurd (show w.isCompleted = true from hcon)
            (by simp [hC]))
        simpa [feedWord, countSucc, hstep] using h

/-- CLAIM C2 counterexample.  The claim quantifies over every Word entity,
but a word created with the empty target string never completes, although
typeCharacter was called exactly length(targetText) = 0 times, each call
(vacuously) supplying the expected character: the stated equivalence fails at
targetText = "" with no calls. -/
theorem C2_empty_target_counterexample :
    ¬ ((feedWord (setActive (mkWord []) true) []).isCompleted = true ↔
        countSucc (setActive (mkWord []) true) [] = ([] : List Char).length) := by
  decide

/-- CLAIM C2 (amended: restricted to a nonempty target string; wrong
characters leave progress unchanged, so the count is of calls that supplied
the expected character).  A fresh active word on nonempty target t becomes
completed over any call sequence iff exactly length(t) calls supplied the
expected character, and a completed word is inactive; in particular feeding
п,р,и,в,е,т to a fresh active word on "привет" makes every call return true
and leaves the word completed and inactive. -/
theorem C2_completion (t cs : List Char) (h : t ≠ []) :
    ((feedWord (setActive (mkWord t) true) cs).isCompleted = true ↔
      countSucc (setActive (mkWord t) true) cs = t.length) ∧
    ((feedWord (setActive (mkWord t) true) cs).isCompleted = true →
      (feedWord (setActive (mkWord t) true) cs).isActive = false) ∧
    feedResults (setActive (mkWord ['п', 'р', 'и', 'в', 'е', 'т']) true)
        ['п', 'р', 'и', 'в', 'е', 'т'] =
      [true, true, true, true, true, true] ∧
    (feedWord (setActive (mkWord ['п', 'р', 'и', 'в', 'е', 'т']) true)
        ['п', 'р', 'и', 'в', 'е', 'т']).isCompleted = true ∧
    (feedWord (setActive (mkWord ['п', 'р', 'и', 'в', 'е', 'т']) true)
        ['п', 'р', 'и', 'в', 'е', 'т']).isActive = false := by
  have hlen : 0 < t.length := List.length_pos.mpr h
  have hspec := feedWord_spec cs (setActive (mkWord t) true)
    (by intro _; exact ⟨rfl, by simpa [setActive, mkWord] using hlen⟩)
    (by intro hcontra; simp [setActive, mkWord] at hcontra)
  obtain ⟨e1, e2, e3⟩ := hspec
  refine ⟨?_, e3, by decide, by decide, by decide⟩
  simpa [setActive, mkWord] using e2

/-- Witness for C2 at a concrete input: over target "да" and the call
sequence д,х,а (one wrong character interspersed) the word completes, and
exactly 2 = length("да") calls supplied the expected character. -/
theorem C2_completion_witness :
    (feedWord (setActive (mkWord ['д', 'а']) true) ['д', 'х', 'а']).isCompleted
        = true ∧
    countSucc (setActive (mkWord ['д', 'а']) true) ['д', 'х', 'а'] = 2 := by
  have h := (C2_completion ['д', 'а'] ['д', 'х', 'а'] (by decide)).1
  exact ⟨h.mpr (by decide), by decide⟩

/-- CLAIM C1.  For every Word entity and character: typeCharacter is a no-op
returning false when isCompleted or not isActive; otherwise it returns true
and increments typedProgress by exactly 1 iff the character equals
targetText[typedProgress], and on a mismatch it returns false and changes
nothing but the transient error flag. -/
theorem C1_typeCharacter (w : WordState) (c : Char) :
    ((w.isCompleted = true ∨ w.isActive = false) → typeCharacter w c = (false, w)) ∧
    (w.isCompleted = false → w.isActive = true →
      ((((typeCharacter w c).1 = true ∧
          (typeCharacter w c).2.typedProgress = w.typedProgress + 1) ↔
          w.targetText[w.typedProgress]? = some c) ∧
        (w.targetText[w.typedProgress]? ≠ some c →
          typeCharacter w c =
            (false, { w with hasWrongCharacter := true })))) := by
  constructor
  · intro h
    have hb : (w.isCompleted || !w.isActive) = true := by
      rcases h with h | h <;> simp [h]
    simp [typeCharacter, hb]
  · intro hc ha
    have hb : (w.isCompleted || !w.isActive) = false := by simp [hc, ha]
    constructor
    · constructor
      · rintro ⟨h1, h2⟩
        by_contra hne
        rcases hg : w.targetText[w.typedProgress]? with _ | e
        · simp [typeCharacter, hb, hg] at h1
        · have hce : ¬ c = e := fun h => hne (h ▸ hg)
          simp [typeCharacter, hb, hg, hce] at h1
      · intro hg
        by_cases hlen : w.targetText.length ≤ w.typedProgress + 1 <;>
          simp [typeCharacter, hb, hg, hlen, complete]
    · intro hne
      rcases hg : w.targetText[w.typedProgress]? with _ | e
      · simp [typeCharacter, hb, hg]
      · have hce : ¬ c = e := fun h => hne (h ▸ hg)
        simp [typeCharacter, hb, hg, hce]

/-- Witness for C1 at a concrete input: an active word on "да" accepts the
character д and advances to progress 1. -/
theorem C1_typeCharacter_witness :
    (typeCharacter (setActive (mkWord ['д', 'а']) true) 'д').1 = true ∧
    (typeCharacter (setActive (mkWord ['д', 'а']) true) 'д').2.typedProgress = 1 := by
  have h := C1_typeCharacter (setActive (mkWord ['д', 'а']) true) 'д'
  exact (h.2 (by decide) (by decide)).1.mpr (by decide)

/-- The public Word operations named by the once-completed-stays-completed
invariant, minus resetProgress: typeCharacter, setActive, update (with the
abstracted boundary-crossing outcome) and destroy. -/
inductive WordOp where
  | typeChar (c : Char)
  | activate (active : Bool)
  | updateOp (reachesEdge : Bool)
  | destroyOp
deriving Repr, DecidableEq

/-- Applies one Word operation. -/
def applyWordOp (w : WordState) : WordOp → WordState
  | WordOp.typeChar c => (typeCharacter w c).2
  | WordOp.activate a => setActive w a
  | WordOp.updateOp e => wordUpdate w e
  | WordOp.destroyOp => wordDestroy w

/-- Applies a sequence of Word operations from left to right. -/
def applyWordOps (w : WordState) : List WordOp → WordState
  | [] => w
  | o :: os => applyWordOps (applyWordOp w o) os

/-- CLAIM C5 counterexample.  resetProgress is one of the public operations
the claim ranges over, and calling it on a completed word resets isCompleted
to false and typedProgress to 0: the word completed on target "да" loses both
fields. -/
theorem C5_resetProgress_counterexample :
    (feedWord (setActive (mkWord ['д', 'а']) true) ['д', 'а']).isCompleted
        = true ∧
    (resetProgress
        (feedWord (setActive (mkWord ['д', 'а']) true) ['д', 'а'])).isCompleted
        = false ∧
    (resetProgress
        (feedWord (setActive (mkWord ['д', 'а']) true)
          ['д', 'а'])).typedProgress = 0 := by
  decide

/-- CLAIM C5 (amended: the sequence of public operations must exclude
resetProgress, which deliberately clears progress and completion for
restarts).  Once isCompleted is true, any sequence of typeCharacter,
setActive, update and destroy operations leaves isCompleted true and
typedProgress unchanged. -/
theorem C5_completed_terminal (w : WordState) (ops : List WordOp)
    (h : w.isCompleted = true) :
    (applyWordOps w ops).isCompleted = true ∧
    (applyWordOps w ops).typedProgress = w.typedProgress := by
  induction ops generalizing w with
  | nil => exact ⟨h, rfl⟩
  | cons o os ih =>
    have hstep : (applyWordOp w o).isCompleted = true ∧
        (applyWordOp w o).typedProgress = w.typedProgress := by
      cases o with
      | typeChar c =>
          rw [applyWordOp, typeCharacter_noop w c (Or.inl h)]
          exact ⟨h, rfl⟩
      | activate a => exact ⟨h, rfl⟩
      | updateOp e => simp [applyWordOp, wordUpdate, h]
      | destroyOp => exact ⟨h, rfl⟩
    obtain ⟨h1, h2⟩ := hstep
    obtain ⟨g1, g2⟩ := ih (applyWordOp w o) h1
    exact ⟨g1, g2.trans h2⟩

/-- Witness for C5 at a concrete input: the completed word on "да" stays
completed with progress 2 under a later typeCharacter, setActive, update and
destroy. -/
theorem C5_completed_terminal_witness :
    (applyWordOps (feedWord (setActive (mkWord ['д', 'а']) true) ['д', 'а'])
        [WordOp.typeChar 'х', WordOp.activate true, WordOp.updateOp true,
          WordOp.destroyOp]).isCompleted = true ∧
    (applyWordOps (feedWord (setActive (mkWord ['д', 'а']) true) ['д', 'а'])
        [WordOp.typeChar 'х', WordOp.activate true, WordOp.updateOp true,
          WordOp.destroyOp]).typedProgress =
      (feedWord (setActive (mkWord ['д', 'а']) true) ['д', 'а']).typedProgress := by
  exact C5_completed_terminal
    (feedWord (setActive (mkWord ['д', 'а']) true) ['д', 'а'])
    [WordOp.typeChar 'х', WordOp.activate true, WordOp.updateOp true,
      WordOp.destroyOp] (by decide)

/-- Embeds WordSpawner.findMatchingWord (WordSpawner.ts:191-199): the linear
scan returning the first live word that matches the input prefix and is not
completed. -/
def findMatchingWord : List WordState → List Char → Option WordState
  | [], _ => none
  | w :: ws, input =>
      if matchesInput w input && !w.isCompleted then some w
      else findMatchingWord ws input

/-- CLAIM C7.  findMatchingWord returns none when no live word has the input
as a prefix of its target; it returns exactly the first word in collection
order that both matches the prefix and is not completed, and any word it
returns is such a first word. -/
theorem C7_findMatchingWord (words : List WordState) (input : List Char) :
    ((∀ w ∈ words, strStartsWith w.targetText input = false) →
      findMatchingWord words input = none) ∧
    (∀ pre w post, words = pre ++ w :: post →
      (matchesInput w input && !w.isCompleted) = true →
      (∀ v ∈ pre, (matchesInput v input && !v.isCompleted) = false) →
      findMatchingWord words input = some w) ∧
    (∀ w, findMatchingWord words input = some w →
      ∃ pre post, words = pre ++ w :: post ∧
        (matchesInput w input && !w.isCompleted) = true ∧
        ∀ v ∈ pre, (matchesInput v input && !v.isCompleted) = false) := by
  induction words with
  | nil =>
    refine ⟨fun _ => rfl, ?_, ?_⟩
    · intro pre w post hsplit
      exact absurd hsplit (by simp)
    · intro w hw
      exact absurd hw (by simp [findMatchingWord])
  | cons w0 ws ih =>
    obtain ⟨ih1, ih2, ih3⟩ := ih
    refine ⟨?_, ?_, ?_⟩
    · intro hall
      have h0 : (matchesInput w0 input && !w0.isCompleted) = false := by
        have := hall w0 (by simp)
        simp [matchesInput, this]
      rw [findMatchingWord, h0]
      simp only [Bool.false_eq_true, if_false]
      exact ih1 (fun v hv => hall v (by simp [hv]))
    · intro pre w post hsplit hmatch hpre
      cases pre with
      | nil =>
        simp only [List.nil_append, List.cons.injEq] at hsplit
        rw [findMatchingWord, hsplit.1, hmatch]
        simp
      | cons v pre2 =>
        simp only [List.cons_append, List.cons.injEq] at hsplit
        have hv : (matchesInput v input && !v.isCompleted) = false :=
          hpre v (by simp)
        rw [← hsplit.1] at hv
        rw [findMatchingWord, hv]
        simp only [Bool.false_eq_true, if_false]
        exact ih2 pre2 w post hsplit.2 hmatch
          (fun u hu => hpre u (by simp [hu]))
    · intro w hw
      rw [findMatchingWord] at hw
      by_cases h0 : (matchesInput w0 input && !w0.isCompleted) = true
      · rw [h0] at hw
        simp only [if_true, Option.some.injEq] at hw
        exact ⟨[], ws, by simp [hw], hw ▸ h0, by simp⟩
      · rw [Bool.eq_false_iff.mpr h0] at hw
        simp only [Bool.false_eq_true, if_false] at hw
        obtain ⟨pre, post, hsp, hm, hp⟩ := ih3 w hw
        refine ⟨w0 :: pre, post, by simp [hsp], hm, ?_⟩
        intro v hv
        rcases List.mem_cons.mp hv with hv0 | hv2
        · rw [hv0]
          exact Bool.eq_false_iff.mpr h0
        · exact hp v hv2

/-- Witness for C7 at concrete inputs (Scenario D): with one live word on
"привет", the prefix "пр" finds it, and with one live word on "абв" the same
prefix finds nothing. -/
theorem C7_findMatchingWord_witness :
    findMatchingWord [mkWord ['п', 'р', 'и', 'в', 'е', 'т']] ['п', 'р'] =
      some (mkWord ['п', 'р', 'и', 'в', 'е', 'т']) ∧
    findMatchingWord [mkWord ['а', 'б', 'в']] ['п', 'р'] = none := by
  constructor
  · exact (C7_findMatchingWord [mkWord ['п', 'р', 'и', 'в', 'е', 'т']]
      ['п', 'р']).2.1 [] (mkWord ['п', 'р', 'и', 'в', 'е', 'т']) []
      rfl (by decide) (by simp)
  · exact (C7_findMatchingWord [mkWord ['а', 'б', 'в']] ['п', 'р']).1
      (by decide)

/-- Embeds the level-transition state of the static class GameState
(src/src/app/core/GameState.ts) read and written by the spawner: the current
level, the pending transition target and the 0-100 level progress. -/
structure GameStateData where
  currentLevel : Nat
  transitioningToLevel : Option Nat
  levelProgress : Rat
deriving Repr, DecidableEq

/-- Embeds GameState.setLevelProgress (GameState.ts:76-78): stores the value
clamped into the 0 to 100 range. -/
def setLevelProgress (g : GameStateData) (p : Rat) : GameStateData :=
  { g with levelProgress := max 0 (min 100 p) }

/-- Embeds GameState.startLevelTransition (GameState.ts:83-86). -/
def startLevelTransition (g : GameStateData) (nextLevel : Nat) : GameStateData :=
  { g with transitioningToLevel := some nextLevel }

/-- Embeds the state of class WordSpawner (WordSpawner.ts:10-50, first
variant) together with the GameState global it reads and writes, plus a
ghost counter advanceFired recording how many times the level-advance signal
(GameState.startLevelTransition plus the onLevelAdvance callback in
handleLevelComplete) has been emitted. -/
structure SpawnerState where
  activeWords : List WordState
  spawnTimer : Rat
  spawnInterval : Rat
  maxWords : Nat
  isSpawning : Bool
  remainingMessages : List (List Char)
  totalMessages : Nat
  game : GameStateData
  advanceFired : Nat
deriving Repr, DecidableEq

/-- Embeds WordSpawner.handleLevelComplete (WordSpawner.ts:329-348): below
level 3 it starts the transition to the next level and fires the
onLevelAdvance callback (counted by advanceFired); at level 3 it does
nothing. -/
def handleLevelComplete (s : SpawnerState) : SpawnerState :=
  if s.game.currentLevel < 3 then
    { s with game := startLevelTransition s.game (s.game.currentLevel + 1),
             advanceFired := s.advanceFired + 1 }
  else s

/-- Embeds WordSpawner.cleanupWords (WordSpawner.ts:136-149): filters out
completed or edge-reached words (their destroy call is presentational), then
checks for level completion. -/
def cleanupWords (s : SpawnerState) : SpawnerState :=
  let remaining :=
    s.activeWords.filter (fun w => !(w.isCompleted || w.hasReachedEdge))
  let s1 := { s with activeWords := remaining }
  if s1.remainingMessages.length = 0 ∧ remaining.length = 0 then
    handleLevelComplete s1
  else s1

/-- Embeds WordSpawner.updateLevelProgress (WordSpawner.ts:318-324). -/
def updateLevelProgress (s : SpawnerState) : SpawnerState :=
  if 0 < s.totalMessages then
    let progress := ((s.totalMessages : Rat) - (s.remainingMessages.length : Rat))
      / (s.totalMessages : Rat) * 100
    { s with game := setLevelProgress s.game progress }
  else s

/-- Embeds WordSpawner.spawnWord (WordSpawner.ts:79-104): no-op when the
remaining-message queue is empty; otherwise removes the entry at the drawn
random index (the source draws floor of random times length, always below
the length, embedded as randomIndex reduced modulo the length), updates the
level progress and pushes a fresh word.  The kinematic spawn position is
presentational. -/
def spawnWord (s : SpawnerState) (randomIndex : Nat) : SpawnerState :=
  if s.remainingMessages.length = 0 then s
  else
    let i := randomIndex % s.remainingMessages.length
    let messageText := (s.remainingMessages[i]?).getD []
    let s1 := { s with remainingMessages := s.remainingMessages.eraseIdx i }
    let s2 := updateLevelProgress s1
    { s2 with activeWords := s2.activeWords ++ [mkWord messageText] }

/-- Embeds WordSpawner.updateWords (WordSpawner.ts:117-131): updates each
live word in order; the Boolean list supplies each word's boundary-crossing
outcome for this tick (missing entries mean no crossing).  The
onWordReachedEdge and onWordCompleted notifications go to the host screen,
whose reactions are modeled as separate operations. -/
def updateWordsList : List WordState → List Bool → List WordState
  | [], _ => []
  | w :: ws, [] => wordUpdate w false :: updateWordsList ws []
  | w :: ws, e :: es => wordUpdate w e :: updateWordsList ws es

/-- The timer-accumulation step of WordSpawner.update (WordSpawner.ts:57):
deltaTime is in seconds, the timer in milliseconds. -/
def accumulateTimer (s : SpawnerState) (deltaTime : Rat) : SpawnerState :=
  { s with spawnTimer := s.spawnTimer + deltaTime * 1000 }

/-- The spawn gate of WordSpawner.update (WordSpawner.ts:60-67): when
spawning is enabled, the timer has reached the interval and the live count is
below the cap, spawnWord runs and the timer is reset to 0. -/
def spawnPhase (s : SpawnerState) (randomIndex : Nat) : SpawnerState :=
  if s.isSpawning = true ∧ s.spawnInterval ≤ s.spawnTimer ∧
      s.activeWords.length < s.maxWords then
    let sw := spawnWord s randomIndex
    { sw with spawnTimer := 0 }
  else s

/-- Embeds WordSpawner.update (WordSpawner.ts:55-74): timer accumulation,
spawn gate, per-word update, cleanup pass. -/
def spawnerUpdate (s : SpawnerState) (deltaTime : Rat) (randomIndex : Nat)
    (edges : List Bool) : SpawnerState :=
  let s1 := spawnPhase (accumulateTimer s deltaTime) randomIndex
  cleanupWords { s1 with activeWords := updateWordsList s1.activeWords edges }

/-- Embeds WordSpawner.setActiveWord (WordSpawner.ts:211-221): deactivates
every live word, then activates the target, identified by its index in the
live collection (none embeds the null argument, and an out-of-range index a
target object not in the collection). -/
def setActiveWordAt (words : List WordState) (target : Option Nat) :
    List WordState :=
  let deactivated := words.map (fun w => setActive w false)
  match target with
  | none => deactivated
  | some i =>
      match deactivated[i]? with
      | some w => deactivated.set i (setActive w true)
      | none => deactivated

/-- Embeds WordSpawner.getActiveWord (WordSpawner.ts:204-206) as the index of
the first active live word. -/
def getActiveWordIdx (words : List WordState) : Option Nat :=
  words.findIdx? (fun w => w.isActive)

/-- Embeds WordSpawner.typeCharacter (WordSpawner.ts:226-232): forwards the
character to the active word if there is one. -/
def spawnerTypeCharacter (words : List WordState) (c : Char) :
    Bool × List WordState :=
  match getActiveWordIdx words with
  | some i =>
      match words[i]? with
      | some w => ((typeCharacter w c).1, words.set i (typeCharacter w c).2)
      | none => (false, words)
  | none => (false, words)

/-- The concrete spawner state of the C4 scenario: level 1, pending queue
and live collection both already empty, default spawn interval 3000 ms. -/
def c4State : SpawnerState :=
  { activeWords := []
    spawnTimer := 0
    spawnInterval := 3000
    maxWords := 5
    isSpawning := true
    remainingMessages := []
    totalMessages := 2
    game := { currentLevel := 1, transitioningToLevel := none,
              levelProgress := 100 }
    advanceFired := 0 }

/-- CLAIM C4 (code bug).  cleanupWords has no guard against repeated firing:
with the pending queue and live collection both empty at level 1, every
update tick calls handleLevelComplete again, so across two consecutive
one-second ticks the level-advance signal is emitted twice, not exactly
once per completion. -/
theorem C4_level_complete_refires :
    (spawnerUpdate c4State 1 0 []).advanceFired = 1 ∧
    (spawnerUpdate (spawnerUpdate c4State 1 0 []) 1 0 []).advanceFired = 2 := by
  norm_num [spawnerUpdate, accumulateTimer, spawnPhase, spawnWord,
    cleanupWords, handleLevelComplete, startLevelTransition, updateWordsList,
    c4State]

/-- CLAIM C10.  In a cleanup pass in which the pending queue is empty and
the live collection is empty after filtering: at level 1 or 2 the spawner
starts a transition to level current+1 and fires the advance callback
exactly once; at level 3 it fires nothing and leaves the game state
unchanged. -/
theorem C10_level_gate (s : SpawnerState)
    (hq : s.remainingMessages = [])
    (hl : s.activeWords.filter
      (fun w => !(w.isCompleted || w.hasReachedEdge)) = []) :
    ((s.game.currentLevel = 1 ∨ s.game.currentLevel = 2) →
      (cleanupWords s).game.transitioningToLevel
          = some (s.game.currentLevel + 1) ∧
      (cleanupWords s).advanceFired = s.advanceFired + 1) ∧
    (s.game.currentLevel = 3 →
      (cleanupWords s).game = s.game ∧
      (cleanupWords s).advanceFired = s.advanceFired) := by
  have hcl : cleanupWords s = handleLevelComplete
      { s with activeWords := [], remainingMessages := [] } := by
    simp only [cleanupWords]
    rw [hq, hl]
    simp
  rw [hcl]
  constructor
  · rintro (h1 | h1) <;>
      simp [handleLevelComplete, startLevelTransition, h1]
  · intro h3
    simp [handleLevelComplete, h3]

/-- Witness for C10 at a concrete input: the level-2 analogue of c4State
transitions to level 3 and fires once in a cleanup pass. -/
theorem C10_level_gate_witness :
    (cleanupWords { c4State with
        game := { currentLevel := 2, transitioningToLevel := none,
                  levelProgress := 100 } }).game.transitioningToLevel
      = some 3 ∧
    (cleanupWords { c4State with
        game := { currentLevel := 2, transitioningToLevel := none,
                  levelProgress := 100 } }).advanceFired = 1 := by
  have h := C10_level_gate { c4State with
      game := { currentLevel := 2, transitioningToLevel := none,
                levelProgress := 100 } } (by decide) (by decide)
  exact h.1 (Or.inr rfl)

/-- updateLevelProgress only writes the game progress field. -/
theorem updateLevelProgress_activeWords (s : SpawnerState) :
    (updateLevelProgress s).activeWords = s.activeWords := by
  unfold updateLevelProgress
  split <;> rfl

/-- updateLevelProgress leaves the message queue untouched. -/
theorem updateLevelProgress_remaining (s : SpawnerState) :
    (updateLevelProgress s).remainingMessages = s.remainingMessages := by
  unfold updateLevelProgress
  split <;> rfl

/-- spawnWord is a no-op on an empty queue, and otherwise appends exactly
one fresh word drawn from the queue. -/
theorem spawnWord_activeWords (s : SpawnerState) (idx : Nat) :
    (s.remainingMessages = [] → spawnWord s idx = s) ∧
    (s.remainingMessages ≠ [] →
      (spawnWord s idx).activeWords = s.activeWords ++
        [mkWord ((s.remainingMessages[idx % s.remainingMessages.length]?).getD
          [])]) := by
  constructor
  · intro h
    simp [spawnWord, h]
  · intro h
    have hlen : ¬ s.remainingMessages.length = 0 := by
      simpa [List.length_eq_zero] using h
    simp only [spawnWord, hlen, if_false]
    rw [updateLevelProgress_activeWords]

/-- The spawn gate taken: spawnWord runs and the timer resets
(WordSpawner.ts:60-67). -/
theorem spawnPhase_pos (s : SpawnerState) (idx : Nat)
    (h : s.isSpawning = true ∧ s.spawnInterval ≤ s.spawnTimer ∧
      s.activeWords.length < s.maxWords) :
    spawnPhase s idx = { spawnWord s idx with spawnTimer := 0 } := by
  simp only [spawnPhase, if_pos h]

/-- The spawn gate closed: the state is unchanged past the timer
accumulation. -/
theorem spawnPhase_neg (s : SpawnerState) (idx : Nat)
    (h : ¬ (s.isSpawning = true ∧ s.spawnInterval ≤ s.spawnTimer ∧
      s.activeWords.length < s.maxWords)) :
    spawnPhase s idx = s := by
  simp only [spawnPhase, if_neg h]

/-- The concrete spawner state of the C6 counterexample: conditions of the
claim all hold on the next one-second tick, but the pending queue is empty. -/
def c6Empty : SpawnerState :=
  { activeWords := []
    spawnTimer := 0
    spawnInterval := 1000
    maxWords := 5
    isSpawning := true
    remainingMessages := []
    totalMessages := 0
    game := { currentLevel := 3, transitioningToLevel := none,
              levelProgress := 100 }
    advanceFired := 0 }

/-- CLAIM C6 counterexample.  On a one-second update of c6Empty, spawning is
enabled, the accumulated timer reaches the interval and the live count is
below the cap, yet no word is spawned (the queue is empty): the claimed iff
fails at this input. -/
theorem C6_empty_queue_counterexample :
    (c6Empty.isSpawning = true ∧
      c6Empty.spawnInterval ≤ c6Empty.spawnTimer + 1 * 1000 ∧
      c6Empty.activeWords.length < c6Empty.maxWords) ∧
    ¬ ((spawnerUpdate c6Empty 1 0 []).activeWords.length
        = c6Empty.activeWords.length + 1) := by
  constructor
  · refine ⟨rfl, by norm_num [c6Empty], by norm_num [c6Empty]⟩
  · norm_num [spawnerUpdate, accumulateTimer, spawnPhase, spawnWord,
      cleanupWords, handleLevelComplete, updateWordsList, c6Empty]

/-- The concrete spawner state of Scenario C: 3 pending entries, cap 5,
interval 1000 ms. -/
def c6Queue : SpawnerState :=
  { activeWords := []
    spawnTimer := 0
    spawnInterval := 1000
    maxWords := 5
    isSpawning := true
    remainingMessages := [['а'], ['б'], ['в']]
    totalMessages := 3
    game := { currentLevel := 1, transitioningToLevel := none,
              levelProgress := 0 }
    advanceFired := 0 }

/-- CLAIM C6 (amended: a word is spawned iff the three stated conditions
hold and additionally the pending queue is nonempty; with an empty queue the
gate still resets the timer but spawns nothing).  When the gate conditions
hold, the timer is reset to 0 and exactly one word is appended iff the queue
is nonempty; when they fail, the update leaves everything but the timer
accumulation unchanged.  Scenario C: from c6Queue, three one-second ticks
leave 3 live words and an empty pending queue. -/
theorem C6_spawn_gate (s : SpawnerState) (dt : Rat) (idx : Nat) :
    ((s.isSpawning = true ∧ s.spawnInterval ≤ s.spawnTimer + dt * 1000 ∧
        s.activeWords.length < s.maxWords) →
      (spawnPhase (accumulateTimer s dt) idx).spawnTimer = 0 ∧
      ((spawnPhase (accumulateTimer s dt) idx).activeWords.length
          = s.activeWords.length + 1 ↔ s.remainingMessages ≠ [])) ∧
    (¬ (s.isSpawning = true ∧ s.spawnInterval ≤ s.spawnTimer + dt * 1000 ∧
        s.activeWords.length < s.maxWords) →
      spawnPhase (accumulateTimer s dt) idx = accumulateTimer s dt) ∧
    ((spawnerUpdate (spawnerUpdate (spawnerUpdate c6Queue 1 0 []) 1 0 [])
        1 0 []).activeWords.length = 3 ∧
      (spawnerUpdate (spawnerUpdate (spawnerUpdate c6Queue 1 0 []) 1 0 [])
        1 0 []).remainingMessages = []) := by
  refine ⟨?_, ?_, ?_⟩
  · intro hcond
    rw [spawnPhase_pos (accumulateTimer s dt) idx hcond]
    refine ⟨rfl, ?_⟩
    by_cases hq : s.remainingMessages = []
    · rw [show (({ spawnWord (accumulateTimer s dt) idx with
          spawnTimer := 0 } : SpawnerState)).activeWords
          = (spawnWord (accumulateTimer s dt) idx).activeWords from rfl,
        (spawnWord_activeWords (accumulateTimer s dt) idx).1 hq]
      simp [accumulateTimer, hq]
    · rw [show (({ spawnWord (accumulateTimer s dt) idx with
          spawnTimer := 0 } : SpawnerState)).activeWords
          = (spawnWord (accumulateTimer s dt) idx).activeWords from rfl,
        (spawnWord_activeWords (accumulateTimer s dt) idx).2 hq]
      simp [accumulateTimer, hq]
  · intro hcond
    exact spawnPhase_neg (accumulateTimer s dt) idx hcond
  · constructor <;>
      norm_num [spawnerUpdate, accumulateTimer, spawnPhase, spawnWord,
        cleanupWords, handleLevelComplete, updateWordsList,
        updateLevelProgress, setLevelProgress, startLevelTransition,
        List.eraseIdx, mkWord, wordUpdate, c6Queue]

/-- Witness for C6 at a concrete input: the first one-second tick from
c6Queue opens the gate, resets the timer and appends exactly one word. -/
theorem C6_spawn_gate_witness :
    (spawnPhase (accumulateTimer c6Queue 1) 0).spawnTimer = 0 ∧
    (spawnPhase (accumulateTimer c6Queue 1) 0).activeWords.length
      = c6Queue.activeWords.length + 1 := by
  have h := (C6_spawn_gate c6Queue 1 0).1
    ⟨rfl, by norm_num [c6Queue], by norm_num [c6Queue]⟩
  exact ⟨h.1, h.2.mpr (by simp [c6Queue])⟩

/-- typeCharacter never activates a word: if the result is active, the input
was active. -/
theorem typeCharacter_active_le (w : WordState) (c : Char)
    (h : (typeCharacter w c).2.isActive = true) : w.isActive = true := by
  cases hA : w.isActive with
  | true => rfl
  | false =>
      rw [typeCharacter_noop w c (Or.inr hA)] at h
      rw [hA] at h
      exact h

/-- Word update never touches the active flag. -/
theorem wordUpdate_isActive (w : WordState) (e : Bool) :
    (wordUpdate w e).isActive = w.isActive := by
  unfold wordUpdate
  split <;> rfl

/-- Deactivating every word leaves no active word. -/
theorem countP_deactivate (ws : List WordState) :
    (ws.map (fun w => setActive w false)).countP (fun w => w.isActive) = 0 := by
  induction ws with
  | nil => rfl
  | cons w ws ih => simpa [setActive] using ih

/-- Replacing one element raises the count of a predicate by at most one. -/
theorem countP_set_le_succ {α : Type} (p : α → Bool) (l : List α) (i : Nat)
    (b : α) : (l.set i b).countP p ≤ l.countP p + 1 := by
  induction l generalizing i with
  | nil => simp
  | cons a l ih =>
      cases i with
      | zero =>
          rw [List.set_cons_zero, List.countP_cons, List.countP_cons]
          by_cases hb : p b = true <;> by_cases ha : p a = true <;>
            simp [hb, ha] <;> omega
      | succ n =>
          rw [List.set_cons_succ, List.countP_cons, List.countP_cons]
          have := ih n
          omega

/-- Replacing one element by one that satisfies the predicate no more often
does not raise its count. -/
theorem countP_set_le {α : Type} (p : α → Bool) (l : List α) (i : Nat) (b : α)
    (h : ∀ a, l[i]? = some a → p b = true → p a = true) :
    (l.set i b).countP p ≤ l.countP p := by
  induction l generalizing i with
  | nil => simp
  | cons a l ih =>
      cases i with
      | zero =>
          rw [List.set_cons_zero, List.countP_cons, List.countP_cons]
          have ha := h a (by simp)
          by_cases hb : p b = true
          · simp [hb, ha hb]
          · have hb0 : (if p b then 1 else 0) = 0 := by simp [hb]
            rw [hb0]
            omega
      | succ n =>
          rw [List.set_cons_succ, List.countP_cons, List.countP_cons]
          have := ih n (fun x hx => h x (by simpa using hx))
          omega

/-- Filtering does not raise the count of a predicate. -/
theorem countP_filter_le {α : Type} (p q : α → Bool) (l : List α) :
    (l.filter q).countP p ≤ l.countP p := by
  induction l with
  | nil => simp
  | cons a l ih =>
      by_cases hq : q a = true
      · rw [List.filter_cons_of_pos hq, List.countP_cons, List.countP_cons]
        omega
      · rw [List.filter_cons_of_neg (by simpa using hq), List.countP_cons]
        omega

/-- setActiveWord leaves at most one active word, whatever the previous
state: it deactivates everything and then activates at most the target. -/
theorem countP_setActiveWordAt (ws : List WordState) (target : Option Nat) :
    (setActiveWordAt ws target).countP (fun w => w.isActive) ≤ 1 := by
  have h0 := countP_deactivate ws
  simp only [setActiveWordAt]
  split
  · omega
  · split
    · rename_i i x w hw
      have h1 := countP_set_le_succ (fun w => w.isActive)
        (ws.map (fun w => setActive w false)) i (setActive w true)
      omega
    · omega


/-- The per-word update pass preserves the number of active words. -/
theorem countP_updateWordsList (ws : List WordState) (es : List Bool) :
    (updateWordsList ws es).countP (fun w => w.isActive)
      = ws.countP (fun w => w.isActive) := by
  induction ws generalizing es with
  | nil => cases es <;> rfl
  | cons w ws ih =>
      cases es with
      | nil =>
          simp only [updateWordsList, List.countP_cons, ih [],
            wordUpdate_isActive]
      | cons e es =>
          simp only [updateWordsList, List.countP_cons, ih es,
            wordUpdate_isActive]

/-- The spawn gate preserves the number of active words: a freshly spawned
word is inactive. -/
theorem countP_spawnPhase (s : SpawnerState) (idx : Nat) :
    (spawnPhase s idx).activeWords.countP (fun w => w.isActive)
      = s.activeWords.countP (fun w => w.isActive) := by
  unfold spawnPhase
  split
  · show (spawnWord s idx).activeWords.countP (fun w => w.isActive) = _
    by_cases hq : s.remainingMessages = []
    · rw [(spawnWord_activeWords s idx).1 hq]
    · rw [(spawnWord_activeWords s idx).2 hq, List.countP_append]
      simp [mkWord]
  · rfl

/-- handleLevelComplete never touches the live collection. -/
theorem handleLevelComplete_activeWords (s : SpawnerState) :
    (handleLevelComplete s).activeWords = s.activeWords := by
  unfold handleLevelComplete
  split <;> rfl

/-- The cleanup pass filters the live collection. -/
theorem cleanupWords_activeWords (s : SpawnerState) :
    (cleanupWords s).activeWords
      = s.activeWords.filter (fun w => !(w.isCompleted || w.hasReachedEdge)) := by
  simp only [cleanupWords]
  split
  · rw [handleLevelComplete_activeWords]
  · rfl

/-- A full spawner update never raises the number of active words. -/
theorem countP_spawnerUpdate (s : SpawnerState) (dt : Rat) (idx : Nat)
    (edges : List Bool) :
    (spawnerUpdate s dt idx edges).activeWords.countP (fun w => w.isActive)
      ≤ s.activeWords.countP (fun w => w.isActive) := by
  unfold spawnerUpdate
  rw [cleanupWords_activeWords]
  show ((updateWordsList (spawnPhase (accumulateTimer s dt) idx).activeWords
      edges).filter
      (fun w => !(w.isCompleted || w.hasReachedEdge))).countP
      (fun w => w.isActive) ≤ _
  calc ((updateWordsList (spawnPhase (accumulateTimer s dt) idx).activeWords
          edges).filter
          (fun w => !(w.isCompleted || w.hasReachedEdge))).countP
          (fun w => w.isActive)
      ≤ (updateWordsList (spawnPhase (accumulateTimer s dt) idx).activeWords
          edges).countP (fun w => w.isActive) := countP_filter_le _ _ _
    _ = (spawnPhase (accumulateTimer s dt) idx).activeWords.countP
          (fun w => w.isActive) := countP_updateWordsList _ edges
    _ = s.activeWords.countP (fun w => w.isActive) :=
        countP_spawnPhase (accumulateTimer s dt) idx


/-- spawner typeCharacter never raises the number of active words. -/
theorem countP_spawnerTypeCharacter (ws : List WordState) (c : Char) :
    ((spawnerTypeCharacter ws c).2).countP (fun w => w.isActive)
      ≤ ws.countP (fun w => w.isActive) := by
  unfold spawnerTypeCharacter
  split
  · rename_i i hi
    split
    · rename_i w hw
      exact countP_set_le _ ws i _ (fun a ha h => by
        rw [hw] at ha
        cases ha
        exact typeCharacter_active_le w c h)
    · exact le_refl _
  · exact le_refl _


/-- The spawner-level operations of claim C3 as a reachability relation over
the spawner state: states reachable from a fresh spawner (empty live
collection, as built by the constructor) by update (spawn, per-word update
and cleanup included), setActiveWord and typeCharacter. -/
inductive SpawnerReachable : SpawnerState → Prop where
  | init (s : SpawnerState) (h : s.activeWords = []) : SpawnerReachable s
  | update (s : SpawnerState) (dt : Rat) (idx : Nat) (edges : List Bool) :
      SpawnerReachable s → SpawnerReachable (spawnerUpdate s dt idx edges)
  | setActiveStep (s : SpawnerState) (target : Option Nat) :
      SpawnerReachable s →
      SpawnerReachable
        { s with activeWords := setActiveWordAt s.activeWords target }
  | typeCharStep (s : SpawnerState) (c : Char) :
      SpawnerReachable s →
      SpawnerReachable
        { s with activeWords := (spawnerTypeCharacter s.activeWords c).2 }

/-- CLAIM C3.  At every reachable state of the spawner, at most one live
word is active: setActiveWord first deactivates every live word and then
activates at most the target, completion deactivates the word, and spawning,
per-word update and cleanup never activate a word. -/
theorem C3_at_most_one_active (s : SpawnerState) (h : SpawnerReachable s) :
    s.activeWords.countP (fun w => w.isActive) ≤ 1 := by
  induction h with
  | init s hs => simp [hs]
  | update s dt idx edges _ ih =>
      exact le_trans (countP_spawnerUpdate s dt idx edges) ih
  | setActiveStep s target _ _ =>
      exact countP_setActiveWordAt s.activeWords target
  | typeCharStep s c _ ih =>
      exact le_trans (countP_spawnerTypeCharacter s.activeWords c) ih

/-- Witness for C3 at a concrete reachable state: a tick from the Scenario C
spawner (which spawns one word) followed by setActiveWord on index 0. -/
theorem C3_at_most_one_active_witness :
    ({ spawnerUpdate c6Queue 1 0 [] with
        activeWords :=
          setActiveWordAt (spawnerUpdate c6Queue 1 0 []).activeWords
            (some 0) } : SpawnerState).activeWords.countP
      (fun w => w.isActive) ≤ 1 := by
  exact C3_at_most_one_active _
    (SpawnerReachable.setActiveStep (spawnerUpdate c6Queue 1 0 []) (some 0)
      (SpawnerReachable.update c6Queue 1 0 [] (SpawnerReachable.init c6Queue rfl)))

/-- Embeds the JS String.prototype.toLowerCase on the single characters the
game routes: ASCII letters and the Russian alphabet (А-Я and Ё); every other
character maps to itself, as in JS for the unicased characters the game
uses. -/
def jsToLower (c : Char) : Char :=
  if 65 ≤ c.toNat ∧ c.toNat ≤ 90 then Char.ofNat (c.toNat + 32)
  else if 1040 ≤ c.toNat ∧ c.toNat ≤ 1071 then Char.ofNat (c.toNat + 32)
  else if c.toNat = 1025 then Char.ofNat 1105
  else c

/-- Embeds the game-relevant state of class MainScreen
(src/src/app/screens/main/MainScreen.ts, first variant): the live words of
its WordSpawner, the locally tracked candidate input, the wrong-character
highlight, and the score and lives counters. -/
structure MainState where
  words : List WordState
  currentInput : List Char
  wrongCharHighlight : Bool
  score : Nat
  lives : Int
deriving Repr, DecidableEq

/-- Embeds MainScreen.clearInput (MainScreen.ts:212-218): clears the input
buffer and highlight and deactivates every word (setActiveWord with null);
the player-target reset is presentational. -/
def clearInput (m : MainState) : MainState :=
  { m with currentInput := [], wrongCharHighlight := false,
           words := setActiveWordAt m.words none }

/-- Embeds MainScreen.handleWordCompleted (MainScreen.ts:274-280): scores
ten points per character and clears the input. -/
def handleWordCompleted (m : MainState) (w : WordState) : MainState :=
  clearInput { m with score := m.score + w.targetText.length * 10 }

/-- Embeds MainScreen.processActiveWordInput (MainScreen.ts:221-228) for the
word at index i of the live collection. -/
def processActiveWordInput (m : MainState) (i : Nat) (c : Char) : MainState :=
  match m.words[i]? with
  | none => m
  | some w =>
      let r := typeCharacter w c
      let m1 := { m with words := m.words.set i r.2 }
      if r.1 && r.2.isCompleted then handleWordCompleted m1 r.2 else m1

/-- The index of the word WordSpawner.findMatchingWord returns (the first
matching, non-completed one), so that the MainScreen model can update the
word in place. -/
def findMatchingWordIdx (words : List WordState) (input : List Char) :
    Option Nat :=
  words.findIdx? (fun w => matchesInput w input && !w.isCompleted)

/-- Embeds the no-active-word branch of MainScreen.handleCharacterTyped
(MainScreen.ts:172-188): extend the candidate input, look for a matching
word; on a hit, record the input, activate the word and feed it the same
character; on a miss, drop the character.  Bullet and player-target calls
are presentational. -/
def tryActivateWord (m : MainState) (lowerChar : Char) : MainState :=
  let potentialInput := m.currentInput ++ [lowerChar]
  match findMatchingWordIdx m.words potentialInput with
  | some i =>
      processActiveWordInput
        { m with currentInput := potentialInput, wrongCharHighlight := false,
                 words := setActiveWordAt m.words (some i) } i lowerChar
  | none => m

/-- Embeds MainScreen.handleCharacterTyped (MainScreen.ts:151-189): with an
active, non-completed word the character is compared against its next
expected character (null compares unequal to any character); otherwise the
no-active branch runs. -/
def handleCharacterTyped (m : MainState) (c : Char) : MainState :=
  let lowerChar := jsToLower c
  match getActiveWordIdx m.words with
  | some i =>
      (match m.words[i]? with
       | some w =>
           if w.isCompleted = false then
             match getNextCharacter w with
             | some expected =>
                 if expected = lowerChar then
                   processActiveWordInput
                     { m with currentInput := m.currentInput ++ [lowerChar],
                              wrongCharHighlight := false } i lowerChar
                 else { m with wrongCharHighlight := true }
             | none => { m with wrongCharHighlight := true }
           else tryActivateWord m lowerChar
       | none => tryActivateWord m lowerChar)
  | none => tryActivateWord m lowerChar

/-- Embeds MainScreen.handleBackspace (MainScreen.ts:192-204): shrink the
candidate input by one when nonempty; when it becomes empty, deactivate
every word (setActiveWord with null). -/
def handleBackspace (m : MainState) : MainState :=
  if 0 < m.currentInput.length then
    let m1 := { m with currentInput := m.currentInput.dropLast,
                       wrongCharHighlight := false }
    if m1.currentInput.length = 0 then
      { m1 with words := setActiveWordAt m1.words none }
    else m1
  else m

/-- setActiveWord with null is exactly the deactivating map. -/
theorem setActiveWordAt_none (ws : List WordState) :
    setActiveWordAt ws none = ws.map (fun w => setActive w false) := rfl

/-- CLAIM C9.  On backspace: a no-op when the candidate prefix is empty;
otherwise the prefix shrinks by exactly one character; when it becomes
empty every word is deactivated; and in every case each word keeps its
typedProgress, isCompleted and hasReachedEdge fields. -/
theorem C9_backspace (m : MainState) :
    (m.currentInput = [] → handleBackspace m = m) ∧
    (m.currentInput ≠ [] →
      (handleBackspace m).currentInput = m.currentInput.dropLast ∧
      (handleBackspace m).currentInput.length = m.currentInput.length - 1) ∧
    (m.currentInput.length = 1 →
      ∀ w ∈ (handleBackspace m).words, w.isActive = false) ∧
    (∀ i : Nat, ((handleBackspace m).words[i]?).map (fun w : WordState => w.typedProgress)
        = (m.words[i]?).map (fun w : WordState => w.typedProgress) ∧
      ((handleBackspace m).words[i]?).map (fun w : WordState => w.isCompleted)
        = (m.words[i]?).map (fun w : WordState => w.isCompleted) ∧
      ((handleBackspace m).words[i]?).map (fun w : WordState => w.hasReachedEdge)
        = (m.words[i]?).map (fun w : WordState => w.hasReachedEdge)) := by
  by_cases hemp : m.currentInput = []
  · have hb : handleBackspace m = m := by
      simp [handleBackspace, hemp]
    refine ⟨fun _ => hb, fun hne => absurd hemp hne, ?_, ?_⟩
    · intro h1
      rw [hemp] at h1
      cases h1
    · intro i
      rw [hb]
      exact ⟨rfl, rfl, rfl⟩
  · have hpos : 0 < m.currentInput.length := List.length_pos.mpr hemp
    by_cases hone : m.currentInput.length = 1
    · have hb : handleBackspace m =
          { m with currentInput := m.currentInput.dropLast,
                   wrongCharHighlight := false,
                   words := m.words.map (fun w => setActive w false) } := by
        simp [handleBackspace, hpos, hone, setActiveWordAt_none]
      refine ⟨fun h => absurd h hemp, fun _ => ⟨by rw [hb], ?_⟩, ?_, ?_⟩
      · rw [hb]
        simp
      · intro _ w hw
        rw [hb] at hw
        simp only [List.mem_map] at hw
        obtain ⟨v, _, hv⟩ := hw
        rw [← hv]
        rfl
      · intro i
        rw [hb]
        simp only [List.getElem?_map, Option.map_map]
        exact ⟨rfl, rfl, rfl⟩
    · have hlen : ¬ m.currentInput.dropLast.length = 0 := by
        rw [List.length_dropLast]
        omega
      have hb : handleBackspace m =
          { m with currentInput := m.currentInput.dropLast,
                   wrongCharHighlight := false } := by
        unfold handleBackspace
        rw [if_pos hpos, if_neg hlen]
      refine ⟨fun h => absurd h hemp, fun _ => ⟨by rw [hb], ?_⟩,
        fun h => absurd h hone, ?_⟩
      · rw [hb]
        simp
      · intro i
        rw [hb]
        exact ⟨rfl, rfl, rfl⟩

/-- Witness for C9 at a concrete input: backspacing the one-character prefix
of a state with one active word on "да" empties the prefix and deactivates
the word while keeping its progress. -/
theorem C9_backspace_witness :
    (handleBackspace
        { words := [setActive { mkWord ['д', 'а'] with typedProgress := 1 } true]
          currentInput := ['д']
          wrongCharHighlight := false
          score := 0
          lives := 3 }).currentInput = [] ∧
    (∀ w ∈ (handleBackspace
        { words := [setActive { mkWord ['д', 'а'] with typedProgress := 1 } true]
          currentInput := ['д']
          wrongCharHighlight := false
          score := 0
          lives := 3 }).words, w.isActive = false) ∧
    ((handleBackspace
        { words := [setActive { mkWord ['д', 'а'] with typedProgress := 1 } true]
          currentInput := ['д']
          wrongCharHighlight := false
          score := 0
          lives := 3 }).words[0]?).map (fun w : WordState => w.typedProgress) = some 1 := by
  have h := C9_backspace
    { words := [setActive { mkWord ['д', 'а'] with typedProgress := 1 } true]
      currentInput := ['д']
      wrongCharHighlight := false
      score := 0
      lives := 3 }
  refine ⟨(h.2.1 (by decide)).1, h.2.2.1 (by decide), ?_⟩
  rw [(h.2.2.2 0).1]
  rfl

/-- A found index of findIdx? points below the length at an element
satisfying the predicate. -/
theorem findIdx?_found {α : Type} (p : α → Bool) (l : List α) (i : Nat)
    (h : l.findIdx? p = some i) :
    i < l.length ∧ ∃ a, l[i]? = some a ∧ p a = true := by
  obtain ⟨hlt, hp, _⟩ := List.findIdx?_eq_some_iff_getElem.mp h
  exact ⟨hlt, ⟨l[i], List.getElem?_eq_getElem hlt, hp⟩⟩

/-- A true startsWith gives elementwise agreement below the prefix
length. -/
theorem strStartsWith_getElem (t s : List Char)
    (h : strStartsWith t s = true) :
    ∀ k : Nat, k < s.length → t[k]? = s[k]? := by
  induction s generalizing t with
  | nil =>
      intro k hk
      exact absurd hk (Nat.not_lt_zero k)
  | cons c cs ih =>
      cases t with
      | nil => cases h
      | cons a ts =>
          rw [strStartsWith] at h
          obtain ⟨h1, h2⟩ := Bool.and_eq_true_iff.mp h
          have hac : a = c := of_decide_eq_true h1
          intro k hk
          cases k with
          | zero => simp [hac]
          | succ n =>
              simpa using ih ts h2 n (Nat.lt_of_succ_lt_succ hk)

/-- The explicit form of setActiveWord at a valid target index. -/
theorem setActiveWordAt_some_getElem (ws : List WordState) (i : Nat)
    (w : WordState) (h : ws[i]? = some w) :
    setActiveWordAt ws (some i)
      = (ws.map (fun v => setActive v false)).set i
          (setActive (setActive w false) true) := by
  simp only [setActiveWordAt]
  rw [List.getElem?_map, h]
  rfl

/-- tryActivateWord drops the character when nothing matches. -/
theorem tryActivateWord_none (m : MainState) (lc : Char)
    (h : findMatchingWordIdx m.words (m.currentInput ++ [lc]) = none) :
    tryActivateWord m lc = m := by
  simp only [tryActivateWord, h]

/-- tryActivateWord on a hit records the input, activates the match and
feeds it the character. -/
theorem tryActivateWord_some (m : MainState) (lc : Char) (i : Nat)
    (h : findMatchingWordIdx m.words (m.currentInput ++ [lc]) = some i) :
    tryActivateWord m lc =
      processActiveWordInput
        { m with currentInput := m.currentInput ++ [lc],
                 wrongCharHighlight := false,
                 words := setActiveWordAt m.words (some i) } i lc := by
  simp only [tryActivateWord, h]

/-- processActiveWordInput at a valid index, written without the match. -/
theorem processActiveWordInput_some (m : MainState) (i : Nat) (c : Char)
    (w : WordState) (h : m.words[i]? = some w) :
    processActiveWordInput m i c =
      if (typeCharacter w c).1 && (typeCharacter w c).2.isCompleted then
        handleWordCompleted
          { m with words := m.words.set i (typeCharacter w c).2 }
          (typeCharacter w c).2
      else { m with words := m.words.set i (typeCharacter w c).2 } := by
  simp only [processActiveWordInput, h]

/-- The concrete MainScreen state of the C8 counterexample: the candidate
prefix "пр" is left over from a previously active word that reached the
edge and was cleaned up (the cleanup pass does not clear the input buffer),
while a fresh, never-typed word on "привет" is live and inactive. -/
def c8State : MainState :=
  { words := [mkWord ['п', 'р', 'и', 'в', 'е', 'т']]
    currentInput := ['п', 'р']
    wrongCharHighlight := false
    score := 0
    lives := 3 }

/-- CLAIM C8 counterexample.  Typing и in c8State (no active word) finds the
word on "привет" via the extended prefix "при", activates it and feeds it
the same character — but the word rejects и (its next expected character is
п), so typedProgress stays 0 instead of advancing to the prefix length 3 as
the claim states. -/
theorem C8_progress_counterexample :
    getActiveWordIdx c8State.words = none ∧
    (handleCharacterTyped c8State 'и').currentInput = ['п', 'р', 'и'] ∧
    ((handleCharacterTyped c8State 'и').words.headD
        (mkWord [])).isActive = true ∧
    ((handleCharacterTyped c8State 'и').words.headD
        (mkWord [])).typedProgress = 0 ∧
    (c8State.currentInput ++ ['и']).length = 3 := by
  decide

/-- CLAIM C8 (amended: the character that triggered activation is consumed
by a typeCharacter call on the matched word, which advances typedProgress to
the new prefix length exactly when the word's typedProgress equals the prior
prefix length — a stale prefix can make the call reject the character).
With no active word: if no live word matches the extended prefix the
character is dropped and nothing changes; if a word matches and its progress
equals the prior prefix length, the character is consumed — progress reaches
the new prefix length and the word is active when that is short of the
target, and the word completes and the input clears when it fills the
target. -/
theorem C8_no_active_routing (m : MainState) (c : Char)
    (hno : getActiveWordIdx m.words = none) :
    (findMatchingWordIdx m.words (m.currentInput ++ [jsToLower c]) = none →
      handleCharacterTyped m c = m) ∧
    (∀ i : Nat, ∀ w : WordState,
      findMatchingWordIdx m.words (m.currentInput ++ [jsToLower c]) = some i →
      m.words[i]? = some w →
      w.typedProgress = m.currentInput.length →
      m.currentInput.length + 1 < w.targetText.length →
      (handleCharacterTyped m c).currentInput
          = m.currentInput ++ [jsToLower c] ∧
      ∃ w2, (handleCharacterTyped m c).words[i]? = some w2 ∧
        w2.isActive = true ∧
        w2.typedProgress = (m.currentInput ++ [jsToLower c]).length) ∧
    (∀ i : Nat, ∀ w : WordState,
      findMatchingWordIdx m.words (m.currentInput ++ [jsToLower c]) = some i →
      m.words[i]? = some w →
      w.typedProgress = m.currentInput.length →
      m.currentInput.length + 1 = w.targetText.length →
      (handleCharacterTyped m c).currentInput = [] ∧
      ∃ w2, (handleCharacterTyped m c).words[i]? = some w2 ∧
        w2.isCompleted = true) := by
  have hroute : handleCharacterTyped m c = tryActivateWord m (jsToLower c) := by
    unfold handleCharacterTyped
    rw [hno]
  refine ⟨?_, ?_, ?_⟩
  · intro hf
    rw [hroute]
    exact tryActivateWord_none m (jsToLower c) hf
  · intro i w hf hw hprog hlt
    obtain ⟨hilen, a, ha, hpa⟩ :=
      findIdx?_found (fun v =>
        matchesInput v (m.currentInput ++ [jsToLower c]) && !v.isCompleted)
        m.words i hf
    rw [hw] at ha
    obtain rfl : w = a := by
      injection ha
    obtain ⟨hmatch, hncomp⟩ := Bool.and_eq_true_iff.mp hpa
    have hcomp : w.isCompleted = false := by
      simpa using hncomp
    rw [matchesInput] at hmatch
    have hchar : w.targetText[w.typedProgress]? = some (jsToLower c) := by
      rw [hprog]
      have hk := strStartsWith_getElem w.targetText
        (m.currentInput ++ [jsToLower c]) hmatch m.currentInput.length
        (by simp)
      rw [hk, List.getElem?_concat_length]
    have hset := setActiveWordAt_some_getElem m.words i w hw
    have hmlen : i < (m.words.map (fun v => setActive v false)).length := by
      rw [List.length_map]
      exact hilen
    have hget2 : (setActiveWordAt m.words (some i))[i]?
        = some (setActive (setActive w false) true) := by
      rw [hset]
      exact List.getElem?_set_self hmlen
    have hstep := typeCharacter_match_mid (setActive (setActive w false) true)
      (jsToLower c)
      (show w.isCompleted = false from hcomp) rfl
      (show w.targetText[w.typedProgress]? = some (jsToLower c) from hchar)
      (show ¬ w.targetText.length ≤ w.typedProgress + 1 by omega)
    rw [hroute, tryActivateWord_some m (jsToLower c) i hf,
      processActiveWordInput_some _ i (jsToLower c)
        (setActive (setActive w false) true) hget2, hstep]
    rw [if_neg (by
      show ¬ ((true && w.isCompleted) = true)
      simp [hcomp])]
    refine ⟨rfl, ?_⟩
    refine ⟨{ setActive (setActive w false) true with
        typedProgress := (setActive (setActive w false) true).typedProgress + 1,
        hasWrongCharacter := false }, ?_, rfl, ?_⟩
    · show ((setActiveWordAt m.words (some i)).set i _)[i]? = _
      have hlen2 : i < (setActiveWordAt m.words (some i)).length := by
        rw [hset, List.length_set]
        exact hmlen
      exact List.getElem?_set_self hlen2
    · show w.typedProgress + 1 = (m.currentInput ++ [jsToLower c]).length
      rw [List.length_append, hprog]
      rfl
  · intro i w hf hw hprog hlen
    obtain ⟨hilen, a, ha, hpa⟩ :=
      findIdx?_found (fun v =>
        matchesInput v (m.currentInput ++ [jsToLower c]) && !v.isCompleted)
        m.words i hf
    rw [hw] at ha
    obtain rfl : w = a := by
      injection ha
    obtain ⟨hmatch, hncomp⟩ := Bool.and_eq_true_iff.mp hpa
    have hcomp : w.isCompleted = false := by
      simpa using hncomp
    rw [matchesInput] at hmatch
    have hchar : w.targetText[w.typedProgress]? = some (jsToLower c) := by
      rw [hprog]
      have hk := strStartsWith_getElem w.targetText
        (m.currentInput ++ [jsToLower c]) hmatch m.currentInput.length
        (by simp)
      rw [hk, List.getElem?_concat_length]
    have hset := setActiveWordAt_some_getElem m.words i w hw
    have hmlen : i < (m.words.map (fun v => setActive v false)).length := by
      rw [List.length_map]
      exact hilen
    have hget2 : (setActiveWordAt m.words (some i))[i]?
        = some (setActive (setActive w false) true) := by
      rw [hset]
      exact List.getElem?_set_self hmlen
    have hstep := typeCharacter_match_final (setActive (setActive w false) true)
      (jsToLower c)
      (show w.isCompleted = false from hcomp) rfl
      (show w.targetText[w.typedProgress]? = some (jsToLower c) from hchar)
      (show w.targetText.length ≤ w.typedProgress + 1 by omega)
    rw [hroute, tryActivateWord_some m (jsToLower c) i hf,
      processActiveWordInput_some _ i (jsToLower c)
        (setActive (setActive w false) true) hget2, hstep]
    rw [if_pos (by
      show (true && true) = true
      rfl)]
    refine ⟨rfl, ?_⟩
    refine ⟨setActive (complete { setActive (setActive w false) true with
      typedProgress := (setActive (setActive w false) true).typedProgress + 1,
      hasWrongCharacter := false }) false, ?_, rfl⟩
    show (setActiveWordAt ((setActiveWordAt m.words (some i)).set i _) none)[i]?
        = _
    rw [setActiveWordAt_none, List.getElem?_map]
    have hlen2 : i < (setActiveWordAt m.words (some i)).length := by
      rw [hset, List.length_set]
      exact hmlen
    rw [List.getElem?_set_self hlen2]
    rfl

/-- Witness for C8 at concrete inputs: with no active word and empty prefix,
typing х against a single word on "да" changes nothing, and typing д
activates the word and advances its progress to 1. -/
theorem C8_no_active_routing_witness :
    handleCharacterTyped
        { words := [mkWord ['д', 'а']], currentInput := [],
          wrongCharHighlight := false, score := 0, lives := 3 } 'х'
      = { words := [mkWord ['д', 'а']], currentInput := [],
          wrongCharHighlight := false, score := 0, lives := 3 } ∧
    (handleCharacterTyped
        { words := [mkWord ['д', 'а']], currentInput := [],
          wrongCharHighlight := false, score := 0, lives := 3 } 'д').currentInput
      = ['д'] ∧
    ∃ w2, (handleCharacterTyped
        { words := [mkWord ['д', 'а']], currentInput := [],
          wrongCharHighlight := false, score := 0, lives := 3 } 'д').words[0]?
        = some w2 ∧ w2.isActive = true ∧ w2.typedProgress = 1 := by
  have h := C8_no_active_routing
    { words := [mkWord ['д', 'а']], currentInput := [],
      wrongCharHighlight := false, score := 0, lives := 3 } 'х' (by decide)
  have h2 := C8_no_active_routing
    { words := [mkWord ['д', 'а']], currentInput := [],
      wrongCharHighlight := false, score := 0, lives := 3 } 'д' (by decide)
  refine ⟨h.1 (by decide), ?_⟩
  have h3 := h2.2.1 0 (mkWord ['д', 'а']) (by decide) (by decide) (by decide)
    (by decide)
  obtain ⟨ha, w2, hb, hc, hd⟩ := h3
  exact ⟨ha, w2, hb, hc, hd⟩

end Typetorial






